import Mathlib

/-!
Verification of the Pharmacy-Pickup extraction and lookup engines.

This file gives a shallow embedding, in Lean, of the two core modules of
the repository:

* `python_server/floor_stock_parser.py` — the table/record extraction
  engine (arithmetic disambiguation of scrambled numeric columns,
  anti-hallucination source validation), and
* `python_server/medication_location_lookup.py` — the fuzzy entity
  resolution engine (normalization, indexing and the lookup cascade).

Python machine integers are arbitrary precision, so numeric record
fields are embedded as `Int`.  Python float scores are embedded as `ℚ`
(the scores here only combine small decimal constants).  The one
external primitive, `difflib.SequenceMatcher(None, a, b).ratio()`, is
not reimplemented: every definition that calls it takes the similarity
function as an explicit parameter named `sim`, and every theorem below
is proved for an arbitrary such function.  All embedded functions are
total: each Python failure path that the source handles is represented
by an explicit `Option` or by the corresponding sentinel result.
-/

namespace PharmacyPickup

/-! ## Python built-in semantics helpers -/

/-- Splitter underlying Python `str.split()`: accumulate characters of
the current word (reversed in `acc`), emitting a word at each whitespace
run.  Structural recursion so that every use reduces definitionally. -/
def splitWsGo : List Char → List Char → List (List Char)
  | [], acc => if acc = [] then [] else [acc.reverse]
  | c :: rest, acc =>
    if c.isWhitespace then
      if acc = [] then splitWsGo rest [] else acc.reverse :: splitWsGo rest []
    else splitWsGo rest (c :: acc)

/-- Python `str.split()` with no argument: split on runs of whitespace,
dropping empty pieces. -/
def pySplit (s : String) : List String :=
  (splitWsGo s.toList []).map String.mk

/-- Python `str.lower()` (ASCII, which is all this code base uses). -/
def pyLower (s : String) : String := String.mk (s.toList.map Char.toLower)

/-- Python `str.upper()` (ASCII). -/
def pyUpper (s : String) : String := String.mk (s.toList.map Char.toUpper)

/-- Python `str.strip()` with no argument: drop leading and trailing
whitespace. -/
def pyStrip (s : String) : String :=
  String.mk (((s.toList.dropWhile Char.isWhitespace).reverse.dropWhile
    Char.isWhitespace).reverse)

/-- Python `sep.join(pieces)`. -/
def joinWith (sep : String) : List String → String
  | [] => ""
  | h :: t => t.foldl (fun acc x => acc ++ sep ++ x) h

/-- Python `c1 -> c2` single-character replacement (`str.replace` with
one-character arguments). -/
def charReplace (a b : Char) (s : String) : String :=
  String.mk (s.toList.map fun c => if c = a then b else c)

/-- Python `s.split(pat)` for a nonempty pattern `pat`: left-to-right,
non-overlapping.  The fuel argument (initialised to the text length)
only makes the recursion structural. -/
def splitOnSubGo (pat : List Char) : Nat → List Char → List Char → List (List Char)
  | _, [], acc => [acc.reverse]
  | 0, l, acc => [acc.reverse ++ l]
  | fuel + 1, c :: rest, acc =>
    if pat ≠ [] ∧ pat.isPrefixOf (c :: rest) then
      acc.reverse :: splitOnSubGo pat fuel ((c :: rest).drop pat.length) []
    else splitOnSubGo pat fuel rest (c :: acc)

/-- Python `s.split(pat)` for a nonempty literal pattern. -/
def splitOnSub (s pat : String) : List String :=
  (splitOnSubGo pat.toList s.toList.length s.toList []).map String.mk

/-- Python `needle in haystack` on strings: substring containment. -/
def strContains (haystack needle : String) : Bool :=
  let h := haystack.toList
  let n := needle.toList
  (List.range (h.length + 1)).any fun i => n.isPrefixOf (h.drop i)

/-- Python `str.isdigit()` on ASCII text: nonempty and all digits. -/
def pyIsAllDigit (s : String) : Bool :=
  s.toList ≠ [] && s.toList.all Char.isDigit

/-- The test `w.replace('.', '').isdigit()` used throughout the lookup
module to recognise numeric tokens such as `10` or `0.45`. -/
def isNumericToken (w : String) : Bool :=
  pyIsAllDigit (String.mk (w.toList.filter (fun c => c ≠ '.')))

/-- Deduplication that keeps the first occurrence of each element, the
behaviour of the Python `seen`-set idiom. -/
def dedupFirst [DecidableEq α] : List α → List α :=
  go []
where
  go [DecidableEq α] (seen : List α) : List α → List α
    | [] => []
    | x :: xs => if x ∈ seen then go seen xs else x :: go (x :: seen) xs

theorem mem_dedupFirst_go [DecidableEq α] (seen : List α) (l : List α) (x : α) :
    x ∈ dedupFirst.go seen l ↔ x ∈ l ∧ x ∉ seen := by
  induction l generalizing seen with
  | nil => simp [dedupFirst.go]
  | cons h t ih =>
    by_cases hx : h ∈ seen
    · simp only [dedupFirst.go, if_pos hx, ih, List.mem_cons]
      constructor
      · rintro ⟨ht, hs⟩
        exact ⟨Or.inr ht, hs⟩
      · rintro ⟨rfl | ht, hs⟩
        · exact absurd hx hs
        · exact ⟨ht, hs⟩
    · simp only [dedupFirst.go, if_neg hx, List.mem_cons, ih]
      constructor
      · rintro (rfl | ⟨ht, hs⟩)
        · exact ⟨Or.inl rfl, hx⟩
        · exact ⟨Or.inr ht, fun hc => hs (Or.inr hc)⟩
      · rintro ⟨rfl | ht, hs⟩
        · exact Or.inl rfl
        · by_cases hxh : x = h
          · exact Or.inl hxh
          · exact Or.inr ⟨ht, fun hc => hc.elim hxh hs⟩

theorem mem_dedupFirst [DecidableEq α] (l : List α) (x : α) :
    x ∈ dedupFirst l ↔ x ∈ l := by
  unfold dedupFirst
  rw [mem_dedupFirst_go]
  simp

/-! ## floor_stock_parser.py — data model

A candidate record (`CandidateRecord` of the spec) is a Python dict; the
fields consulted by the functions embedded here are modelled as `Option`
fields (`none` = key absent or `None`).  The list of unassigned column
numbers is `numbers` (an absent key behaves like the empty list in every
embedded function). -/

structure MedRec where
  name : String
  numbers : List Int
  pick : Option Int
  maxAmt : Option Int
  currentAmt : Option Int
  warning : Option String
  strength : Option String
  floor : Option String
deriving DecidableEq, Inhabited

/-- Python truthiness of `med.get(field)` for an integer field:
absent / `None` / `0` are all falsy. -/
def optIntTruthy : Option Int → Bool
  | some v => v ≠ 0
  | none => false

/-- Python truthiness of `med.get(field)` for a string field. -/
def optStrTruthy : Option String → Bool
  | some s => s ≠ ""
  | none => false

/-- Warning text attached on the two-numbers branch of
`_identify_numbers_by_formula` (the branch always has exactly 2 numbers). -/
def incompleteDataWarning : String :=
  "⚠ Incomplete data! Only 2 number(s) found. Please enter correct amount manually."

/-- Warning text attached on the no-valid-triplet fallback branch of
`_identify_numbers_by_formula`. -/
def formulaMismatchWarning (p m c : Int) : String :=
  "⚠ Formula mismatch! Found Pick=" ++ toString p ++ ", Max=" ++ toString m ++
    ", Current=" ++ toString c ++ ". Please enter correct amount manually."

/-- Warning text attached by the formula check inside
`_parse_with_row_clustering`. -/
def rowMismatchWarning (p m c e : Int) : String :=
  "⚠ Formula mismatch! Found Pick=" ++ toString p ++ ", Max=" ++ toString m ++
    ", Current=" ++ toString c ++ ". Expected Pick=" ++ toString e ++
    ". Please verify manually."

/-! ## `_identify_columns_by_formula` -/

/-- One entry of the `valid_triplets` list of
`_identify_columns_by_formula`: index positions, the candidate
`(pick, max, current)` values, the index distance and the float score
(embedded as `ℚ`). -/
structure ScoredTriplet where
  positions : Nat × Nat × Nat
  values : Int × Int × Int
  distance : Nat
  score : ℚ
deriving DecidableEq

/-- FIRST PASS of `_identify_columns_by_formula`: consecutive index
triples `(i, i+1, i+2)`, score `100 - 2 + i*0.1`. -/
def consecutiveTriplets (ns : List Int) : List ScoredTriplet :=
  (List.range (ns.length - 2)).filterMap fun i =>
    if |ns.getD i 0 - (ns.getD (i + 1) 0 - ns.getD (i + 2) 0)| ≤ 5 then
      some ⟨(i, i + 1, i + 2), (ns.getD i 0, ns.getD (i + 1) 0, ns.getD (i + 2) 0), 2,
        100 - 2 + mkRat i 10⟩
    else none

/-- SECOND PASS: skip patterns `(i, i+1, i+3)` and `(i, i+2, i+3)`,
score `80 - distance + i*0.1` with `distance = max(m-p, c-m)`. -/
def nearConsecutiveTriplets (ns : List Int) : List ScoredTriplet :=
  (List.range (ns.length - 3)).flatMap fun i =>
    [(i, i + 1, i + 3), (i, i + 2, i + 3)].filterMap fun pat =>
      if pat.2.2 < ns.length then
        if |ns.getD pat.1 0 - (ns.getD pat.2.1 0 - ns.getD pat.2.2 0)| ≤ 5 then
          some ⟨pat, (ns.getD pat.1 0, ns.getD pat.2.1 0, ns.getD pat.2.2 0),
            max (pat.2.1 - pat.1) (pat.2.2 - pat.2.1),
            80 - ((max (pat.2.1 - pat.1) (pat.2.2 - pat.2.1) : Nat) : ℚ) + mkRat pat.1 10⟩
        else none
      else none

/-- THIRD PASS: all ordered triples of pairwise distinct indices, score
`50 - distance + i*0.1` with `distance = max(|j-i|, |k-j|)`. -/
def allComboTriplets (ns : List Int) : List ScoredTriplet :=
  (List.range ns.length).flatMap fun i =>
    (List.range ns.length).flatMap fun j =>
      (List.range ns.length).filterMap fun k =>
        if i = j ∨ j = k ∨ i = k then none
        else
          if |ns.getD i 0 - (ns.getD j 0 - ns.getD k 0)| ≤ 5 then
            some ⟨(i, j, k), (ns.getD i 0, ns.getD j 0, ns.getD k 0),
              max (max (j - i) (i - j)) (max (k - j) (j - k)),
              50 - ((max (max (j - i) (i - j)) (max (k - j) (j - k)) : Nat) : ℚ) + mkRat i 10⟩
          else none

/-- Python `max(valid_triplets, key=lambda t: t.score)`: keeps the first
element among those of maximal score. -/
def maxByScore : List ScoredTriplet → Option ScoredTriplet
  | [] => none
  | h :: t => some (t.foldl (fun best x => if best.score < x.score then x else best) h)

/-- Embedding of `_identify_columns_by_formula`: passes 1 and 2, then all
combinations only when the first two passes found nothing, then the
best-scoring triplet (or `(None, None, None)`, embedded as `none`). -/
def identifyColumnsByFormula (ns : List Int) : Option (Int × Int × Int) :=
  (maxByScore (if (consecutiveTriplets ns ++ nearConsecutiveTriplets ns).isEmpty then
    allComboTriplets ns
  else consecutiveTriplets ns ++ nearConsecutiveTriplets ns)).map fun t => t.values

/-! ## `_identify_numbers_by_formula` -/

/-- The unused-valid-triplet collection loop run after a triplet
`sel` has been selected for a record: every ordered triple of pairwise
distinct indices whose values satisfy the formula and differ from the
selected values, first occurrences kept (the `seen_triplets` set). -/
def unusedTriples (ns : List Int) (sel : Int × Int × Int) : List (Int × Int × Int) :=
  dedupFirst ((List.range ns.length).flatMap fun i =>
    (List.range ns.length).flatMap fun j =>
      (List.range ns.length).filterMap fun k =>
        if i = j ∨ j = k ∨ i = k then none
        else
          if |ns.getD i 0 - (ns.getD j 0 - ns.getD k 0)| ≤ 5 ∧
              (ns.getD i 0, ns.getD j 0, ns.getD k 0) ≠ sel then
            some (ns.getD i 0, ns.getD j 0, ns.getD k 0)
          else none)

/-- FIRST PASS of `_identify_numbers_by_formula` on one record: returns
the processed record together with the unused valid triplets it
contributes to the redistribution pool. -/
def processMed (med : MedRec) : MedRec × List (Int × Int × Int) :=
  let ns := med.numbers
  if ns.length ≥ 1 then
    if ns.length = 1 then
      ({ med with pick := some (ns.getD 0 0) }, [])
    else if ns.length ≥ 3 then
      match identifyColumnsByFormula ns with
      | some (p, m, c) =>
          ({ med with pick := some p, maxAmt := some m, currentAmt := some c },
            unusedTriples ns (p, m, c))
      | none =>
          let p := ns.getD 0 0
          let m := ns.getD 1 0
          let c := ns.getD 2 0
          let w := formulaMismatchWarning p m c
          ({ med with pick := some p, maxAmt := some m, currentAmt := some c, warning := some w }, [])
    else
      ({ med with pick := some (ns.getD 0 0), warning := some incompleteDataWarning }, [])
  else (med, [])

/-- The whole first pass: processed records in order, and the pool of
unused triplets in record order (the `source_med` tag each pool entry
carries in Python never influences control flow and is omitted; Python
`list.remove` removes the first value-equal entry, which coincides with
the removal below). -/
def firstPass (meds : List MedRec) : List MedRec × List (Int × Int × Int) :=
  (meds.map fun m => (processMed m).1, meds.flatMap fun m => (processMed m).2)

/-- Pool selection of the SECOND PASS: prefer the first pooled triplet
with pick in 10–20, then the first with pick in 5–30, else `pop(0)`. -/
def chooseTriplet (pool : List (Int × Int × Int)) :
    Option ((Int × Int × Int) × List (Int × Int × Int)) :=
  match pool with
  | [] => none
  | p :: rest =>
    let reasonable := (p :: rest).filter fun t => 10 ≤ t.1 ∧ t.1 ≤ 20
    match reasonable with
    | t :: _ => some (t, (p :: rest).erase t)
    | [] =>
      let fallback := (p :: rest).filter fun t => 5 ≤ t.1 ∧ t.1 ≤ 30
      match fallback with
      | t :: _ => some (t, (p :: rest).erase t)
      | [] => some (p, rest)

/-- SECOND PASS of `_identify_numbers_by_formula`: walk the processed
records; a record whose `pick_amount` is absent or `None` receives a
pooled triplet when the pool is nonempty. -/
def secondPass : List MedRec → List (Int × Int × Int) → List MedRec
  | [], _ => []
  | m :: rest, pool =>
    if m.pick = none then
      match chooseTriplet pool with
      | some (t, pool₂) =>
          { m with pick := some t.1, maxAmt := some t.2.1, currentAmt := some t.2.2 } ::
            secondPass rest pool₂
      | none => m :: secondPass rest pool
    else
      m :: secondPass rest pool

/-- Embedding of `_identify_numbers_by_formula`: first pass, pool sorted ascending by
pick value (Python `list.sort` is stable, as is insertion sort), then
the redistribution pass. -/
def identifyNumbersByFormula (meds : List MedRec) : List MedRec :=
  let fp := firstPass meds
  secondPass fp.1 (List.insertionSort (fun a b => a.1 ≤ b.1) fp.2)

/-! ## `_validate_and_correct_pick_amounts` and the row-clustering
formula check -/

/-- Embedding of `_validate_and_correct_pick_amounts`: when pick, max and current are
all truthy and the formula fails, `pick_amount` is overwritten with
`max - current` (both correction branches of the source assign the same
value); otherwise the record is kept as-is. -/
def validateAndCorrectPickAmounts (meds : List MedRec) : List MedRec :=
  meds.map fun med =>
    if med.pick.getD 0 ≠ 0 ∧ med.maxAmt.getD 0 ≠ 0 ∧ med.currentAmt.getD 0 ≠ 0 then
      if |med.pick.getD 0 - (med.maxAmt.getD 0 - med.currentAmt.getD 0)| ≤ 5 then med
      else if |med.maxAmt.getD 0 - (med.maxAmt.getD 0 - med.currentAmt.getD 0)| ≤ 5 then
        { med with pick := some (med.maxAmt.getD 0 - med.currentAmt.getD 0) }
      else { med with pick := some (med.maxAmt.getD 0 - med.currentAmt.getD 0) }
    else med

/-- The per-record formula validation of `_parse_with_row_clustering`
(lines 1800–1812): a record with all three values truthy and a formula
mismatch is kept but gets a warning. -/
def rowFormulaCheck (med : MedRec) : MedRec :=
  if optIntTruthy med.pick && optIntTruthy med.maxAmt && optIntTruthy med.currentAmt then
    if |med.pick.getD 0 - (med.maxAmt.getD 0 - med.currentAmt.getD 0)| ≤ 5 then med
    else
      { med with warning := some (rowMismatchWarning (med.pick.getD 0) (med.maxAmt.getD 0)
          (med.currentAmt.getD 0) (med.maxAmt.getD 0 - med.currentAmt.getD 0)) }
  else med

/-! ## medication_location_lookup.py — helpers -/

/-- Strict lexicographic (code point) comparison of character lists,
the order Python uses to compare strings. -/
def charListLt : List Char → List Char → Bool
  | [], [] => false
  | [], _ :: _ => true
  | _ :: _, [] => false
  | a :: as, b :: bs => if a < b then true else if b < a then false else charListLt as bs

/-- Ascending lexicographic (code point) sorting of strings, the
behaviour of Python `sorted` on a list of strings.  Insertion sort is
used because it is stable and reduces definitionally. -/
def sortStrings (l : List String) : List String :=
  List.insertionSort (fun a b => charListLt b.toList a.toList = false) l

/-- The `ignore_words` set of `_get_sorted_words_key`: units, forms,
release types, salts and common words excluded from the key. -/
def ignoreWords : List String :=
  ["MG", "MCG", "ML", "G", "L", "OZ", "MEQ", "UNITS", "UNIT", "%",
   "TABLET", "CAPSULE", "VIAL", "INJ", "SOLN", "SOLUTION",
   "SYRUP", "LIQUID", "SUSP", "SUSPENSION", "ELIXIR", "DROPS", "SPRAY",
   "CREAM", "OINTMENT", "GEL", "LOTION", "FOAM", "PATCH", "PAD", "KIT", "CUP",
   "BAG", "BOTTLE", "MINIBAG", "IVPB", "ADD-EASE", "ADDEASE", "INFUSION",
   "RINSE", "MOUTHWASH", "UD", "ISO-OSMOTIC", "ISO", "OSMOTIC", "PYXIS", "OSM",
   "PUMP", "INHALER", "NEBULIZER", "AMPUL", "CARTRIDGE", "SYRINGE", "PEN", "CREON",
   "DELAYED", "RELEASE", "EXTENDED", "ER", "DR", "IR", "SR", "CR", "XL", "REL",
   "HCL", "SODIUM", "POTASSIUM", "CHLORIDE", "SULFATE", "TARTRATE", "GLUCONATE",
   "ACETATE", "ORAL", "TOPICAL", "INTRAVENOUS", "OPHTHALMIC", "OTIC", "NASAL",
   "IN", "AND", "WITH", "FOR", "OF", "AS", "IV", "IM", "PO", "PR", "SL", "TO"]

/-- Embedding of `_get_sorted_words_key`: replace separators by spaces, split, keep
significant words (length above one and not ignored, or numeric tokens
not ignored), deduplicate, and return the sorted numeric tokens followed
by the sorted words, space-joined. -/
def getSortedWordsKey (s : String) : String :=
  let clean := charReplace ')' ' ' (charReplace '(' ' ' (charReplace '-' ' ' (charReplace '/' ' ' s)))
  let words := pySplit clean
  let significant := words.filter fun w =>
    if w.length > 1 && !(ignoreWords.contains w) then true
    else if isNumericToken w then !(ignoreWords.contains w)
    else false
  let finalNums := sortStrings (dedupFirst (significant.filter fun w => isNumericToken w))
  let finalWords := sortStrings (dedupFirst (significant.filter fun w => !(isNumericToken w)))
  joinWith " " (finalNums ++ finalWords)

/-- The salt-name roster of `_remove_salt_names`. -/
def saltNames : List String :=
  ["BITARTRATE", "HYDROCHLORIDE", "SODIUM", "POTASSIUM",
   "CALCIUM", "SULFATE", "ACETATE", "TARTRATE", "MALEATE",
   "FUMARATE", "SUCCINATE", "PHOSPHATE", "CITRATE", "MESYLATE",
   "BESYLATE", "HCL", "PORCINE", "RECOMBINANT"]

/-- Embedding of `_remove_salt_names`: drop salt words. -/
def removeSaltNames (name : String) : String :=
  joinWith " " ((pySplit name).filter fun w => !(saltNames.contains w))

/-- The alternatives of the strength regular expression, in the order the
Python alternation tries them. -/
def strengthUnits : List String := ["MG", "G", "ML", "MCG", "UNITS", "MEQ", "%", "MG/ML"]

/-- Attempt to match one unit alternative (case-insensitively) at the
head of `l`; returns the number of characters consumed. -/
def tryUnits (l : List Char) : Option Nat :=
  strengthUnits.findSome? fun u =>
    if u.toList.isPrefixOf (l.map Char.toUpper) then some u.length else none

/-- Attempt to match the regex `\d+(?:\.\d+)?\s*(?:MG|G|ML|MCG|UNITS|MEQ|%|MG/ML)`
at the head of `l` (case-insensitive).  Backtracking over the optional
`\.\d+` group is the only backtracking that can change the outcome:
shortening the greedy digit or space runs always leaves a digit or a
space where a unit letter is required. -/
def tryStrengthAt (l : List Char) : Option (List Char × List Char) :=
  let ds := l.takeWhile Char.isDigit
  if ds.isEmpty then none
  else
    let rest1 := l.drop ds.length
    let branches : List (List Char × List Char) :=
      (match rest1 with
       | '.' :: r2 =>
         let ds2 := r2.takeWhile Char.isDigit
         if ds2.isEmpty then [] else [(ds ++ '.' :: ds2, r2.drop ds2.length)]
       | _ => []) ++ [(ds, rest1)]
    branches.findSome? fun br =>
      let sp := br.2.takeWhile Char.isWhitespace
      let rest2 := br.2.drop sp.length
      match tryUnits rest2 with
      | some k => some (br.1 ++ sp ++ rest2.take k, rest2.drop k)
      | none => none

/-- The `re.findall` scan: try a match at every position, continuing
after each hit.  The fuel argument (initialised to the text length) only
makes the recursion structural; every match consumes at least one
character, so the fuel never runs out. -/
def strengthScan : Nat → List Char → List String
  | 0, _ => []
  | _ + 1, [] => []
  | fuel + 1, c :: rest =>
    match tryStrengthAt (c :: rest) with
    | some (m, rest2) => String.mk m :: strengthScan fuel rest2
    | none => strengthScan fuel rest

/-- Embedding of `_extract_strength`: all strength patterns, space-joined, uppercased. -/
def extractStrength (text : String) : String :=
  pyUpper (joinWith " " (strengthScan text.toList.length text.toList))

/-! ## medication_location_lookup.py — database state and lookup -/

/-- The in-memory state built by `_load_locations`:
`location_db` maps a normalized name to `(location_code, location_desc)`;
`search_index` buckets normalized names by first character and by
`W:`-prefixed first word; `sorted_index` maps a sorted-words key to a
normalized name.  Dicts are embedded as association lists in insertion
order. -/
structure LookupDB where
  locationDb : List (String × String × String)
  searchIndex : List (String × List String)
  sortedIndex : List (String × String)

/-- Dict lookup (`d[k]` / `d.get(k)`); keys of a Python dict are unique,
so first match is the match. -/
def dictFind (d : List (String × α)) (k : String) : Option α :=
  (d.find? fun e => e.1 = k).map fun e => e.2

/-- The `location_db` lookup returning `(code, desc)`. -/
def lookupExact (st : LookupDB) (key : String) : Option (String × String) :=
  dictFind st.locationDb key

/-- The refrigerated-item keyword roster of `find_location`. -/
def fridgeKeywords : List String :=
  ["INSULIN", "VACCINE", "DTAP", "TDAP", "PNEUMOVAX", "H1N1", "FLU", "ZOSTER", "SHINGRIX",
   "VASOPRESSIN", "FAMOTIDINE VIAL", "FAMOTIDINE INJ",
   "AMOXICILLIN-CLAVULANATE SYRINGE", "AUGMENTIN",
   "VANCOMYCIN SYRINGE", "VANCOMYCIN INJ",
   "FORMOTEROL", "PERFOROMIST", "ARMODAFINIL", "NUVIGIL",
   "REFRIGERATE", "FRIDGE",
   "FILGRASTIM", "NEUPOGEN", "ZARXIO",
   "FOSPHENYTOIN", "CEREBYX",
   "EPTIFIBATIDE", "INTEGRILIN",
   "OCTREOTIDE", "SANDOSTATIN",
   "CASPOFUNGIN", "CANCIDAS",
   "DAPTOMYCIN", "CUBICIN",
   "CALCITONIN", "MIACALCIN",
   "VELETRI", "EPOPROSTENOL", "FLOLAN",
   "ISOPROTERENOL", "ISUPREL",
   "HEPATITIS", "ENGERIX", "RECOMBIVAX"]

/-- The fridge priority override test: any roster keyword contained as a
substring of the uppercased raw name, or the amoxicillin-clavulanate
suspension combination. -/
def fridgeCheck (medicationName form : String) : Bool :=
  (fridgeKeywords.any fun k => strContains (pyUpper medicationName) k) ||
    (strContains (pyUpper medicationName) "AMOX" &&
      strContains (pyUpper medicationName) "CLAV" && strContains (pyUpper form) "SUSP")

/-- Embedding of `get_location_description` (the duplicated literal keys of the
Python dict collapse to the same entries). -/
def getLocationDescription (code : String) : String :=
  (dictFind [("PHRM", "Main Pharmacy"), ("STR", "Store Room"),
    ("VIT", "Vitamins Section"), ("IV", "IV Room"),
    ("FRIDGE", "Refrigerated Section")] code).getD code

/-- Embedding of `_fuzzy_match`.  Here `sim` is the similarity primitive,
taken as a parameter.  Returns `(code, desc, score)` when the best
weighted score over the indexed candidates reaches `threshold`. -/
def fuzzyMatch (sim : String → String → ℚ) (st : LookupDB) (query : String)
    (threshold : ℚ) : Option (String × String × ℚ) :=
  let queryWords := pySplit query
  match queryWords with
  | [] => none
  | qw :: _ =>
    let queryFirstChar : String := String.mk [qw.toList.headD ' ']
    let cands1 := (dictFind st.searchIndex ("W:" ++ qw)).getD []
    let cands2 :=
      match dictFind st.searchIndex queryFirstChar with
      | some letterCands =>
        if cands1.length < 50 then
          cands1 ++ letterCands.filter fun c => !(cands1.contains c)
        else cands1
      | none => cands1
    let candidates := if cands2.isEmpty then st.locationDb.map (fun e => e.1) else cands2
    let queryStrength := extractStrength query
    let queryNoSalt := removeSaltNames query
    let best := candidates.foldl (fun (acc : ℚ × Option (String × String)) dbName =>
        match dictFind st.locationDb dbName with
        | none => acc
        | some cd =>
          let dbStrength := extractStrength dbName
          let dbNoSalt := removeSaltNames dbName
          let score1 := sim query dbName
          let score2 := sim queryNoSalt dbNoSalt
          let score4 : ℚ :=
            if strContains dbName query || strContains dbNoSalt queryNoSalt then mkRat 85 100 else 0
          let baseScore := max (max score1 score2) score4
          let weighted :=
            if queryStrength ≠ "" ∧ dbStrength ≠ "" then
              baseScore * mkRat 6 10 + sim queryStrength dbStrength * mkRat 4 10
            else baseScore
          if acc.1 < weighted then (weighted, some cd) else acc)
      ((0 : ℚ), none)
    match best with
    | (score, some cd) => if threshold ≤ score then some (cd.1, cd.2, score) else none
    | (_, none) => none

/-- The string Python builds as `full_med` (strip, then append stripped
strength and form when truthy). -/
def fullMedString (name strength form : String) : String :=
  pyStrip name ++ (if strength ≠ "" then " " ++ pyStrip strength else "") ++
    (if form ≠ "" then " " ++ pyStrip form else "")

/-- Strategy 2: exact match ignoring the form (only tried when a form was
given). -/
def strategy2 (normalize : String → String) (st : LookupDB)
    (name strength form : String) : Option (String × String) :=
  if form ≠ "" then
    lookupExact st (normalize (pyStrip name ++ (if strength ≠ "" then " " ++ pyStrip strength else "")))
  else none

/-- Strategy 3: exact match of name plus strength (only tried when a
strength was given; the source interpolates the raw, unstripped values). -/
def strategy3 (normalize : String → String) (st : LookupDB)
    (name strength : String) : Option (String × String) :=
  if strength ≠ "" then lookupExact st (normalize (name ++ " " ++ strength)) else none

/-- Strategy 7, candidate-key selection: the exact sorted-key fast path,
then the linear scan accepting the first index key whose sorted word
list equals the scan word list and whose numeric-token set contains
every scan numeric token. -/
def strategy7MatchedKey (sortedIndex : List (String × String)) (scanKey : String) :
    Option String :=
  match dictFind sortedIndex scanKey with
  | some _ => some scanKey
  | none =>
    let parts := pySplit scanKey
    let scanWords := sortStrings (parts.filter fun w => !(isNumericToken w))
    let scanNums := sortStrings (parts.filter fun w => isNumericToken w)
    (sortedIndex.map fun e => e.1).find? fun candKey =>
      let candParts := pySplit candKey
      let candWords := sortStrings (candParts.filter fun w => !(isNumericToken w))
      let candNums := candParts.filter fun w => isNumericToken w
      (scanWords == candWords) && scanNums.all fun n => candNums.contains n

/-- Strategy 7 of `find_location`: sorted-word key of the normalized
query, then entry retrieval through `sorted_index` and `location_db`
(on states built by `_load_locations` both retrievals always succeed). -/
def strategy7 (st : LookupDB) (normalized : String) : Option (String × String) :=
  let scanKey := getSortedWordsKey normalized
  match strategy7MatchedKey st.sortedIndex scanKey with
  | some ck => (dictFind st.sortedIndex ck).bind fun dbKey => lookupExact st dbKey
  | none => none

/-- Embedding of `find_location`: empty-name guard, fridge priority override, then
the cascade of strategies 1–7, `none` when everything misses.
`normalize` is `_normalize_medication_name`; no claim below depends on
its internal definition, so it is a parameter. -/
def findLocation (sim : String → String → ℚ) (normalize : String → String)
    (st : LookupDB) (medicationName strength form : String) :
    Option (String × String) :=
  if medicationName = "" then none
  else if fridgeCheck medicationName form then
    some ("FRIDGE", getLocationDescription "FRIDGE")
  else
    lookupExact st (normalize (fullMedString medicationName strength form)) <|>
    strategy2 normalize st medicationName strength form <|>
    strategy3 normalize st medicationName strength <|>
    lookupExact st (normalize medicationName) <|>
    (fuzzyMatch sim st (normalize (fullMedString medicationName strength form))
      (mkRat 85 100)).map (fun r => (r.1, r.2.1)) <|>
    (fuzzyMatch sim st (normalize medicationName) (mkRat 80 100)).map (fun r => (r.1, r.2.1)) <|>
    strategy7 st (normalize (fullMedString medicationName strength form))

/-! ## floor_stock_parser.py — source validator -/

/-- Embedding of `_fuzzy_match_in_text`: the ordered cascade of source-text checks —
exact substring of the whitespace-normalized text, substring of the raw
text, substring of the parenthetical-stripped main name, component-wise
check for compound names containing `in`, n-gram similarity at
`threshold` against sliding windows of source words, and finally any
single main-name word of at least 6 characters as a literal substring. -/
def fuzzyMatchInText (sim : String → String → ℚ) (searchTermRaw textRaw : String)
    (threshold : ℚ) : Bool :=
  let searchTerm := pyLower searchTermRaw
  let text := pyLower textRaw
  let textNormalized := joinWith " " (pySplit text)
  let searchNormalized := joinWith " " (pySplit searchTerm)
  if strContains textNormalized searchNormalized then true
  else if strContains text searchTerm then true
  else
    let mainName := pyStrip ((splitOnSub searchTerm "(").headD "")
    if strContains text mainName then true
    else if strContains mainName " in " &&
        ((splitOnSub mainName " in ").filter fun p => pyStrip p ≠ "").all
          (fun p => strContains text (pyStrip p)) then true
    else
      let words := pySplit text
      let searchWords := pySplit searchTerm
      let ngramHit := (List.range words.length).any fun i =>
        ((List.range (min (i + searchWords.length + 2) (words.length + 1))).filter
            fun j => i + 1 ≤ j).any fun j =>
          let phrase := joinWith " " ((words.drop i).take (j - i))
          threshold ≤ sim searchTerm phrase
      if ngramHit then true
      else (pySplit mainName).any fun w => w.length ≥ 6 && strContains text w

/-- The class `[A-Za-z0-9]` (ASCII). -/
def pyAlnum (c : Char) : Bool := c.isAlpha || c.isDigit

/-- Remainders reachable by the optional `[-_]?` piece of the floor
pattern. -/
def sepRemainders (l : List Char) : List (List Char) :=
  l :: (match l with
        | c :: rest => if c = '-' || c = '_' then [rest] else []
        | [] => [])

/-- Full-string decompositions of `\d+[-_]?[A-Za-z0-9]+[-_]?[A-Za-z0-9]*`:
a backtracking regex anchored on both sides matches exactly when such a
decomposition exists. -/
def floorCore (l : List Char) : Bool :=
  (List.range (l.length + 1)).any fun i =>
    let d := l.take i
    let r1 := l.drop i
    (decide (1 ≤ i) && d.all Char.isDigit) &&
      (sepRemainders r1).any fun r2 =>
        (List.range (r2.length + 1)).any fun j =>
          let a := r2.take j
          let r3 := r2.drop j
          (decide (1 ≤ j) && a.all pyAlnum) &&
            (sepRemainders r3).any fun r4 => r4.all pyAlnum

/-- The floor format check
`re.match` of the raw pattern (caret, digits, optional separator,
alphanumerics, optional separator, alphanumerics, dollar); the `$`
anchor also accepts a single trailing newline. -/
def floorMatch (s : String) : Bool :=
  let l := s.toList
  floorCore l ||
    (match l.getLast? with
     | some c => c = '\n' && floorCore l.dropLast
     | none => false)

/-- The per-record verdict of `_validate_against_source`:
`validation_passed` after Validation 1 (name must fuzzy-match the source
text) and Validation 3 (floor format, only consulted when the name check
passed and the floor is truthy).  Validation 2 (strength) is disabled in
the source and Validation 4 (pick range) only writes a log line; neither
alters the verdict or the record. -/
def sourcePasses (sim : String → String → ℚ) (sourceText : String) (med : MedRec) : Bool :=
  if fuzzyMatchInText sim (pyLower med.name) (pyLower sourceText) (mkRat 70 100) &&
      optStrTruthy med.floor then
    floorMatch (med.floor.getD "")
  else fuzzyMatchInText sim (pyLower med.name) (pyLower sourceText) (mkRat 70 100)

/-- Embedding of `_validate_against_source`: keep exactly the records whose verdict
is positive, unchanged and in order. -/
def validateAgainstSource (sim : String → String → ℚ) (sourceText : String) :
    List MedRec → List MedRec
  | [] => []
  | med :: rest =>
    if sourcePasses sim sourceText med then med :: validateAgainstSource sim sourceText rest
    else validateAgainstSource sim sourceText rest

/-- The post-validator header filter of `parse`
(`^(PICK|Med|Description|Amount|Device|Summary)`, case-insensitive). -/
def isHeaderName (name : String) : Bool :=
  ["PICK", "Med", "Description", "Amount", "Device", "Summary"].any fun p =>
    (pyLower p).toList.isPrefixOf (pyLower name).toList

/-- The final filtering step of `parse` applied to validator output. -/
def filterHeaders (meds : List MedRec) : List MedRec :=
  meds.filter fun m => !(isHeaderName m.name)

/-! ## Supporting lemmas for the disambiguator -/

/-- A valid formula triple located at pairwise distinct positions
`(i, j, k)` of the number list. -/
def ValidAt (ns : List Int) (i j k : Nat) : Prop :=
  i < ns.length ∧ j < ns.length ∧ k < ns.length ∧ i ≠ j ∧ j ≠ k ∧ i ≠ k ∧
    |ns.getD i 0 - (ns.getD j 0 - ns.getD k 0)| ≤ 5

theorem secondPass_length (procs : List MedRec) (pool : List (Int × Int × Int)) :
    (secondPass procs pool).length = procs.length := by
  induction procs generalizing pool with
  | nil => simp [secondPass]
  | cons m rest ih =>
    by_cases hm : m.pick = none
    · cases hct : chooseTriplet pool with
      | none => simp [secondPass, hm, hct, ih]
      | some tp => simp [secondPass, hm, hct, ih]
    · simp [secondPass, hm, ih]

theorem secondPass_getElem?_of_pick_isSome (procs : List MedRec)
    (pool : List (Int × Int × Int)) (i : Nat) (pm : MedRec)
    (h : procs[i]? = some pm) (hp : pm.pick ≠ none) :
    (secondPass procs pool)[i]? = some pm := by
  induction procs generalizing pool i with
  | nil => simp at h
  | cons m rest ih =>
    cases i with
    | zero =>
      simp only [List.getElem?_cons_zero, Option.some_inj] at h
      subst h
      simp [secondPass, hp]
    | succ n =>
      simp only [List.getElem?_cons_succ] at h
      by_cases hm : m.pick = none
      · cases hct : chooseTriplet pool with
        | none => simpa [secondPass, hm, hct] using ih pool n h
        | some tp => simpa [secondPass, hm, hct] using ih tp.2 n h
      · simpa [secondPass, hm] using ih pool n h

theorem identifyNumbersByFormula_length (meds : List MedRec) :
    (identifyNumbersByFormula meds).length = meds.length := by
  unfold identifyNumbersByFormula firstPass
  rw [secondPass_length]
  simp

/-- C8-supporting: the first pass on a record with exactly one number. -/
theorem processMed_one (med : MedRec) (h : med.numbers.length = 1) :
    processMed med = ({ med with pick := some (med.numbers.getD 0 0) }, []) := by
  unfold processMed
  rw [if_pos (by omega), if_pos h]

/-- C8-supporting: the first pass on a record with exactly two numbers. -/
theorem processMed_two (med : MedRec) (h : med.numbers.length = 2) :
    processMed med =
      ({ med with pick := some (med.numbers.getD 0 0), warning := some incompleteDataWarning }, []) := by
  unfold processMed
  rw [if_pos (by omega), if_neg (by omega), if_neg (by omega)]

/-- C8: a record with a single collected number gets that number as its
`pick_amount` and is otherwise untouched (in particular no warning is
attached); a record with exactly two collected numbers gets the first as
`pick_amount` together with the insufficient-data warning. -/
theorem single_and_pair_number_records (meds : List MedRec) (i : Nat) (med : MedRec)
    (h : meds[i]? = some med) :
    (med.numbers.length = 1 →
      (identifyNumbersByFormula meds)[i]? =
        some { med with pick := some (med.numbers.getD 0 0) }) ∧
    (med.numbers.length = 2 →
      (identifyNumbersByFormula meds)[i]? =
        some { med with pick := some (med.numbers.getD 0 0), warning := some incompleteDataWarning }) := by
  constructor
  · intro h1
    unfold identifyNumbersByFormula
    apply secondPass_getElem?_of_pick_isSome
    · show (meds.map fun m => (processMed m).1)[i]? = _
      rw [List.getElem?_map, h]
      simp [processMed_one med h1]
    · simp
  · intro h2
    unfold identifyNumbersByFormula
    apply secondPass_getElem?_of_pick_isSome
    · show (meds.map fun m => (processMed m).1)[i]? = _
      rw [List.getElem?_map, h]
      simp [processMed_two med h2]
    · simp

/-- Witness for the C8 theorem: a record whose only visible number is 18
comes out with `pick_amount = 18` and no warning; a record with the two
numbers 7 and 9 comes out with `pick_amount = 7` and the
insufficient-data warning. -/
theorem single_and_pair_number_records_witness :
    (identifyNumbersByFormula [⟨"Gabapentin", [18], none, none, none, none, none, none⟩])[0]? =
      some ⟨"Gabapentin", [18], some 18, none, none, none, none, none⟩ ∧
    (identifyNumbersByFormula [⟨"Aspirin", [7, 9], none, none, none, none, none, none⟩])[0]? =
      some ⟨"Aspirin", [7, 9], some 7, none, none, some incompleteDataWarning, none, none⟩ := by
  constructor
  · exact (single_and_pair_number_records
      [⟨"Gabapentin", [18], none, none, none, none, none, none⟩] 0
      ⟨"Gabapentin", [18], none, none, none, none, none, none⟩ rfl).1 rfl
  · exact (single_and_pair_number_records
      [⟨"Aspirin", [7, 9], none, none, none, none, none, none⟩] 0
      ⟨"Aspirin", [7, 9], none, none, none, none, none, none⟩ rfl).2 rfl

theorem validAt_of_mem_consecutive {ns : List Int} {t : ScoredTriplet}
    (ht : t ∈ consecutiveTriplets ns) : ∃ i j k, ValidAt ns i j k := by
  rcases List.mem_filterMap.mp ht with ⟨i, hi, hf⟩
  rw [List.mem_range] at hi
  split at hf
  · refine ⟨i, i + 1, i + 2, ?_, ?_, ?_, by omega, by omega, by omega, by assumption⟩ <;> omega
  · cases hf

theorem validAt_of_mem_nearConsecutive {ns : List Int} {t : ScoredTriplet}
    (ht : t ∈ nearConsecutiveTriplets ns) : ∃ i j k, ValidAt ns i j k := by
  rcases List.mem_flatMap.mp ht with ⟨i, hi, ht2⟩
  rw [List.mem_range] at hi
  rcases List.mem_filterMap.mp ht2 with ⟨pat, hpat, hf⟩
  simp only [List.mem_cons, List.not_mem_nil, or_false] at hpat
  rcases hpat with rfl | rfl
  · split at hf
    · split at hf
      · refine ⟨i, i + 1, i + 3, ?_, ?_, ?_, by omega, by omega, by omega, by assumption⟩ <;>
          omega
      · cases hf
    · cases hf
  · split at hf
    · split at hf
      · refine ⟨i, i + 2, i + 3, ?_, ?_, ?_, by omega, by omega, by omega, by assumption⟩ <;>
          omega
      · cases hf
    · cases hf

theorem validAt_of_mem_allCombo {ns : List Int} {t : ScoredTriplet}
    (ht : t ∈ allComboTriplets ns) : ∃ i j k, ValidAt ns i j k := by
  rcases List.mem_flatMap.mp ht with ⟨i, hi, ht2⟩
  rcases List.mem_flatMap.mp ht2 with ⟨j, hj, ht3⟩
  rcases List.mem_filterMap.mp ht3 with ⟨k, hk, hf⟩
  rw [List.mem_range] at hi hj
  rw [List.mem_range] at hk
  split at hf
  · cases hf
  · split at hf
    · have hne : ¬(i = j ∨ j = k ∨ i = k) := by assumption
      push_neg at hne
      exact ⟨i, j, k, hi, hj, hk, hne.1, hne.2.1, hne.2.2, by assumption⟩
    · cases hf

theorem mem_allCombo_of_validAt {ns : List Int} {i j k : Nat}
    (hv : ValidAt ns i j k) :
    (⟨(i, j, k), (ns.getD i 0, ns.getD j 0, ns.getD k 0),
      max (max (j - i) (i - j)) (max (k - j) (j - k)),
      50 - ((max (max (j - i) (i - j)) (max (k - j) (j - k)) : Nat) : ℚ) + mkRat i 10⟩ :
      ScoredTriplet) ∈ allComboTriplets ns := by
  obtain ⟨hi, hj, hk, hij, hjk, hik, habs⟩ := hv
  refine List.mem_flatMap.mpr ⟨i, List.mem_range.mpr hi, ?_⟩
  refine List.mem_flatMap.mpr ⟨j, List.mem_range.mpr hj, ?_⟩
  refine List.mem_filterMap.mpr ⟨k, List.mem_range.mpr hk, ?_⟩
  rw [if_neg (by push_neg; exact ⟨hij, hjk, hik⟩)]
  simp only [if_pos habs]

theorem identifyColumnsByFormula_eq_none_iff (ns : List Int) :
    identifyColumnsByFormula ns = none ↔ ∀ i j k, ¬ ValidAt ns i j k := by
  unfold identifyColumnsByFormula
  constructor
  · intro h i j k hv
    by_cases he : (consecutiveTriplets ns ++ nearConsecutiveTriplets ns).isEmpty
    · rw [if_pos he] at h
      cases hac : allComboTriplets ns with
      | nil =>
        have := mem_allCombo_of_validAt hv
        rw [hac] at this
        cases this
      | cons a l => rw [hac] at h; simp [maxByScore] at h
    · rw [if_neg he] at h
      cases hcn : consecutiveTriplets ns ++ nearConsecutiveTriplets ns with
      | nil => rw [hcn] at he; simp at he
      | cons a l => rw [hcn] at h; simp [maxByScore] at h
  · intro h
    have hc : consecutiveTriplets ns = [] := by
      rw [List.eq_nil_iff_forall_not_mem]
      intro t ht
      obtain ⟨i, j, k, hv⟩ := validAt_of_mem_consecutive ht
      exact h i j k hv
    have hn : nearConsecutiveTriplets ns = [] := by
      rw [List.eq_nil_iff_forall_not_mem]
      intro t ht
      obtain ⟨i, j, k, hv⟩ := validAt_of_mem_nearConsecutive ht
      exact h i j k hv
    have ha : allComboTriplets ns = [] := by
      rw [List.eq_nil_iff_forall_not_mem]
      intro t ht
      obtain ⟨i, j, k, hv⟩ := validAt_of_mem_allCombo ht
      exact h i j k hv
    rw [hc, hn]
    simp [maxByScore, ha]

/-- C4-supporting: the fallback branch of the first pass. -/
theorem processMed_fallback (med : MedRec) (h3 : 3 ≤ med.numbers.length)
    (hcol : identifyColumnsByFormula med.numbers = none) :
    processMed med =
      ({ med with pick := some (med.numbers.getD 0 0), maxAmt := some (med.numbers.getD 1 0), currentAmt := some (med.numbers.getD 2 0), warning := some (formulaMismatchWarning (med.numbers.getD 0 0) (med.numbers.getD 1 0) (med.numbers.getD 2 0)) }, []) := by
  unfold processMed
  rw [if_pos (by omega), if_neg (by omega), if_pos h3, hcol]

/-- C4: a record with at least three collected numbers among which no
pairwise-distinct index triple satisfies the ±5 formula gets its first
three numbers as `(pick, max, current)`, receives the formula-mismatch
warning, keeps those numbers through the redistribution pass, and is
never dropped (the output list keeps the length of the input list). -/
theorem no_valid_triple_keeps_first_three_with_warning (meds : List MedRec) (i : Nat)
    (med : MedRec) (h : meds[i]? = some med) (h3 : 3 ≤ med.numbers.length)
    (hno : ∀ a, a < med.numbers.length → ∀ b, b < med.numbers.length →
      ∀ c, c < med.numbers.length → ¬(a ≠ b ∧ b ≠ c ∧ a ≠ c ∧
        |med.numbers.getD a 0 - (med.numbers.getD b 0 - med.numbers.getD c 0)| ≤ 5)) :
    (identifyNumbersByFormula meds)[i]? =
      some { med with pick := some (med.numbers.getD 0 0), maxAmt := some (med.numbers.getD 1 0), currentAmt := some (med.numbers.getD 2 0), warning := some (formulaMismatchWarning (med.numbers.getD 0 0) (med.numbers.getD 1 0) (med.numbers.getD 2 0)) } ∧
    (identifyNumbersByFormula meds).length = meds.length := by
  have hcol : identifyColumnsByFormula med.numbers = none := by
    rw [identifyColumnsByFormula_eq_none_iff]
    intro a b c hv
    obtain ⟨ha, hb, hc, hab, hbc, hac, habs⟩ := hv
    exact hno a ha b hb c hc ⟨hab, hbc, hac, habs⟩
  constructor
  · unfold identifyNumbersByFormula
    apply secondPass_getElem?_of_pick_isSome
    · show (meds.map fun m => (processMed m).1)[i]? = _
      rw [List.getElem?_map, h]
      simp [processMed_fallback med h3 hcol]
    · simp
  · exact identifyNumbersByFormula_length meds

/-- Witness for the C4 theorem: the list `[7, 9, 100]` admits no formula triple;
the record keeps `(7, 9, 100)` and is flagged. -/
theorem no_valid_triple_keeps_first_three_with_warning_witness :
    (identifyNumbersByFormula [⟨"Heparin", [7, 9, 100], none, none, none, none, none, none⟩])[0]? =
      some ⟨"Heparin", [7, 9, 100], some 7, some 9, some 100,
        some (formulaMismatchWarning 7 9 100), none, none⟩ ∧
    (identifyNumbersByFormula
      [⟨"Heparin", [7, 9, 100], none, none, none, none, none, none⟩]).length = 1 := by
  have := no_valid_triple_keeps_first_three_with_warning
    [⟨"Heparin", [7, 9, 100], none, none, none, none, none, none⟩] 0
    ⟨"Heparin", [7, 9, 100], none, none, none, none, none, none⟩ rfl (by decide) (by decide)
  exact this

/-! ## C3, C5, C9 — validation invariants -/

theorem optIntTruthy_iff (o : Option Int) : optIntTruthy o = true ↔ o.getD 0 ≠ 0 := by
  cases o with
  | none => simp [optIntTruthy]
  | some v => simp [optIntTruthy]

/-- C3: after `_validate_and_correct_pick_amounts`, and likewise after
the row-clustering formula check, every record whose pick, max and
current are all populated (truthy: the source reads the fields with
`med.get(..., 0)`, so zero and absent coincide) satisfies
`|pick - (max - current)| ≤ 5` or carries a warning. -/
theorem populated_records_satisfy_formula_or_warn :
    (∀ meds med, med ∈ validateAndCorrectPickAmounts meds →
      optIntTruthy med.pick = true → optIntTruthy med.maxAmt = true →
      optIntTruthy med.currentAmt = true →
      |med.pick.getD 0 - (med.maxAmt.getD 0 - med.currentAmt.getD 0)| ≤ 5 ∨
        med.warning ≠ none) ∧
    (∀ med : MedRec,
      optIntTruthy (rowFormulaCheck med).pick = true →
      optIntTruthy (rowFormulaCheck med).maxAmt = true →
      optIntTruthy (rowFormulaCheck med).currentAmt = true →
      |(rowFormulaCheck med).pick.getD 0 -
        ((rowFormulaCheck med).maxAmt.getD 0 - (rowFormulaCheck med).currentAmt.getD 0)| ≤ 5 ∨
        (rowFormulaCheck med).warning ≠ none) := by
  constructor
  · intro meds med hmem hp hm hc
    rcases List.mem_map.mp hmem with ⟨orig, _, heq⟩
    by_cases h1 : orig.pick.getD 0 ≠ 0 ∧ orig.maxAmt.getD 0 ≠ 0 ∧ orig.currentAmt.getD 0 ≠ 0
    · rw [if_pos h1] at heq
      by_cases h2 : |orig.pick.getD 0 - (orig.maxAmt.getD 0 - orig.currentAmt.getD 0)| ≤ 5
      · rw [if_pos h2] at heq
        subst heq
        exact Or.inl h2
      · rw [if_neg h2] at heq
        by_cases h3 : |orig.maxAmt.getD 0 - (orig.maxAmt.getD 0 - orig.currentAmt.getD 0)| ≤ 5
        · rw [if_pos h3] at heq
          subst heq
          left
          simp
        · rw [if_neg h3] at heq
          subst heq
          left
          simp
    · rw [if_neg h1] at heq
      subst heq
      exact absurd ⟨(optIntTruthy_iff _).mp hp, (optIntTruthy_iff _).mp hm,
        (optIntTruthy_iff _).mp hc⟩ h1
  · intro med hp hm hc
    unfold rowFormulaCheck
    by_cases h1 : (optIntTruthy med.pick && optIntTruthy med.maxAmt &&
        optIntTruthy med.currentAmt) = true
    · rw [if_pos h1]
      by_cases h2 : |med.pick.getD 0 - (med.maxAmt.getD 0 - med.currentAmt.getD 0)| ≤ 5
      · rw [if_pos h2]
        exact Or.inl h2
      · rw [if_neg h2]
        right
        simp
    · rw [if_neg h1]
      unfold rowFormulaCheck at hp hm hc
      rw [if_neg h1] at hp hm hc
      rw [hp, hm, hc] at h1
      simp at h1

/-- Witness for the C3 theorem: a populated record passing the formula
check, through both embedded validation steps. -/
theorem populated_records_satisfy_formula_or_warn_witness :
    (|(10 : Int) - (20 - 12)| ≤ 5 ∨
      (⟨"Senna", [], some 10, some 20, some 12, none, none, none⟩ : MedRec).warning ≠ none) ∧
    (|(10 : Int) - (20 - 12)| ≤ 5 ∨
      (rowFormulaCheck ⟨"Senna", [], some 10, some 20, some 12, none, none, none⟩).warning ≠
        none) := by
  constructor
  · exact populated_records_satisfy_formula_or_warn.1
      [⟨"Senna", [], some 10, some 20, some 12, none, none, none⟩]
      ⟨"Senna", [], some 10, some 20, some 12, none, none, none⟩ (by decide) (by decide)
      (by decide) (by decide)
  · rcases populated_records_satisfy_formula_or_warn.2
      ⟨"Senna", [], some 10, some 20, some 12, none, none, none⟩ (by decide) (by decide)
      (by decide) with h | h
    · exact Or.inl (by decide)
    · exact Or.inr h

theorem validateAgainstSource_eq_filter (sim : String → String → ℚ) (src : String)
    (meds : List MedRec) :
    validateAgainstSource sim src meds = meds.filter (sourcePasses sim src) := by
  induction meds with
  | nil => rfl
  | cons m rest ih =>
    by_cases h : sourcePasses sim src m = true
    · simp [validateAgainstSource, List.filter, h, ih]
    · simp [validateAgainstSource, List.filter, h, ih]

/-- The similarity function used to instantiate witnesses; on every path
evaluated by a witness the cascade decides before consulting it. -/
def simZero : String → String → ℚ := fun _ _ => 0

/-- C5: a record whose name fails every source-text check of
`_fuzzy_match_in_text` is removed from the validator output entirely and
never reaches the final record list of `parse`. -/
theorem failed_source_check_discards_record (sim : String → String → ℚ)
    (src : String) (meds : List MedRec) (med : MedRec) (_hm : med ∈ meds)
    (hfail : fuzzyMatchInText sim (pyLower med.name) (pyLower src) (mkRat 70 100) = false) :
    med ∉ validateAgainstSource sim src meds ∧
    med ∉ filterHeaders (validateAgainstSource sim src meds) := by
  have hpass : sourcePasses sim src med = false := by
    unfold sourcePasses
    rw [hfail]
    simp
  have h1 : med ∉ validateAgainstSource sim src meds := by
    rw [validateAgainstSource_eq_filter]
    intro hc
    have := (List.mem_filter.mp hc).2
    rw [hpass] at this
    cases this
  refine ⟨h1, fun hc => h1 ?_⟩
  exact (List.mem_filter.mp hc).1

/-- Witness for the C5 theorem: with an empty source page no check can
succeed, and the record is dropped. -/
theorem failed_source_check_discards_record_witness :
    (⟨"zzz (brand)", [], some 3, none, none, none, none, none⟩ : MedRec) ∉
      validateAgainstSource simZero "" [⟨"zzz (brand)", [], some 3, none, none, none, none, none⟩] ∧
    (⟨"zzz (brand)", [], some 3, none, none, none, none, none⟩ : MedRec) ∉
      filterHeaders (validateAgainstSource simZero ""
        [⟨"zzz (brand)", [], some 3, none, none, none, none, none⟩]) :=
  failed_source_check_discards_record simZero ""
    [⟨"zzz (brand)", [], some 3, none, none, none, none, none⟩]
    ⟨"zzz (brand)", [], some 3, none, none, none, none, none⟩ (by decide) (by decide)

/-- C9 counterexample: a record with `pick_amount = 500 ∉ [0, 200]` and
no warning passes the validator unchanged — the range check of
Validation 4 only logs, so the emitted record is outside the range yet
carries no warning, contradicting the claim.  The name is found by the
exact-substring check, so the result holds for the Python similarity
function as well as for `simZero`. -/
theorem pick_range_flagging_counterexample :
    validateAgainstSource simZero "gabapentin 100 mg capsule"
      [⟨"gabapentin", [], some 500, none, none, none, none, some "8E-1"⟩] =
      [⟨"gabapentin", [], some 500, none, none, none, none, some "8E-1"⟩] ∧
    ¬((0 : Int) ≤ 500 ∧ (500 : Int) ≤ 200) ∧
    (⟨"gabapentin", [], some 500, none, none, none, none, some "8E-1"⟩ : MedRec).warning =
      none := by
  refine ⟨by decide, by decide, rfl⟩

/-- C9 as amended: the validator never discards or modifies a record on
account of its pick amount — it keeps exactly the records passing the
name and floor checks, unchanged, whatever their `pick_amount` (so no
warning is attached either). -/
theorem out_of_range_pick_kept_unchanged (sim : String → String → ℚ) (src : String)
    (meds : List MedRec) (med : MedRec) (hm : med ∈ meds)
    (hname : fuzzyMatchInText sim (pyLower med.name) (pyLower src) (mkRat 70 100) = true)
    (hfloor : optStrTruthy med.floor = true → floorMatch (med.floor.getD "") = true) :
    med ∈ validateAgainstSource sim src meds ∧
    ∀ x ∈ validateAgainstSource sim src meds, x ∈ meds := by
  have hpass : sourcePasses sim src med = true := by
    unfold sourcePasses
    rw [hname]
    by_cases hof : optStrTruthy med.floor = true
    · rw [hof]
      simp [hfloor hof]
    · simp only [Bool.true_and]
      rw [Bool.not_eq_true] at hof
      rw [hof]
      simp [hname]
  constructor
  · rw [validateAgainstSource_eq_filter]
    exact List.mem_filter.mpr ⟨hm, hpass⟩
  · intro x hx
    rw [validateAgainstSource_eq_filter] at hx
    exact (List.mem_filter.mp hx).1

/-- Witness for the amended C9 theorem at the counterexample record. -/
theorem out_of_range_pick_kept_unchanged_witness :
    (⟨"gabapentin", [], some 500, none, none, none, none, some "8E-1"⟩ : MedRec) ∈
      validateAgainstSource simZero "gabapentin 100 mg capsule"
        [⟨"gabapentin", [], some 500, none, none, none, none, some "8E-1"⟩] ∧
    ∀ x ∈ validateAgainstSource simZero "gabapentin 100 mg capsule"
        [⟨"gabapentin", [], some 500, none, none, none, none, some "8E-1"⟩],
      x ∈ [⟨"gabapentin", [], some 500, none, none, none, none, some "8E-1"⟩] :=
  out_of_range_pick_kept_unchanged simZero "gabapentin 100 mg capsule"
    [⟨"gabapentin", [], some 500, none, none, none, none, some "8E-1"⟩]
    ⟨"gabapentin", [], some 500, none, none, none, none, some "8E-1"⟩
    (by decide) (by decide) (by decide)

/-! ## C2, C10 — the fridge priority override -/

theorem fridgeCheck_empty_name (form : String) : fridgeCheck "" form = false := rfl

/-- Shared helper: whenever the fridge test fires, `find_location`
returns the constant FRIDGE location, for any database state. -/
theorem findLocation_of_fridgeCheck (sim : String → String → ℚ)
    (normalize : String → String) (st : LookupDB) (name strength form : String)
    (h : fridgeCheck name form = true) :
    findLocation sim normalize st name strength form =
      some ("FRIDGE", "Refrigerated Section") := by
  by_cases hn : name = ""
  · subst hn
    rw [fridgeCheck_empty_name] at h
    cases h
  · unfold findLocation
    rw [if_neg hn, if_pos h]
    rfl

/-- C2: a query whose raw medication name matches the refrigerated-item
roster resolves to the constant FRIDGE location, for every database
state `st` (including the empty one) and before any index or database
strategy can contribute — the conclusion does not depend on `st`,
`normalize` or `sim`. -/
theorem fridge_roster_overrides_database (sim : String → String → ℚ)
    (normalize : String → String) (st : LookupDB) (name strength form : String)
    (h : fridgeCheck name form = true) :
    findLocation sim normalize st name strength form =
      some ("FRIDGE", "Refrigerated Section") :=
  findLocation_of_fridgeCheck sim normalize st name strength form h

/-- Witness for the C2 theorem: an insulin query against the empty
reference table. -/
theorem fridge_roster_overrides_database_witness :
    findLocation simZero (fun s => s) ⟨[], [], []⟩ "INSULIN REGULAR" "" "" =
      some ("FRIDGE", "Refrigerated Section") :=
  fridge_roster_overrides_database simZero (fun s => s) ⟨[], [], []⟩
    "INSULIN REGULAR" "" "" (by decide)

/-- C10: the fridge test is substring containment, not whole-word
matching — any query whose uppercased name contains a roster keyword as
an infix (for example the letters FLU inside FLUOXETINE) resolves to
FRIDGE unconditionally, bypassing every database strategy. -/
theorem fridge_keyword_substring_bypasses_database (sim : String → String → ℚ)
    (normalize : String → String) (st : LookupDB) (name strength form k : String)
    (hk : k ∈ fridgeKeywords) (hsub : strContains (pyUpper name) k = true) :
    findLocation sim normalize st name strength form =
      some ("FRIDGE", "Refrigerated Section") := by
  apply findLocation_of_fridgeCheck
  unfold fridgeCheck
  have hbase : (fridgeKeywords.any fun kw => strContains (pyUpper name) kw) = true := by
    rw [List.any_eq_true]
    exact ⟨k, hk, hsub⟩
  rw [hbase]
  rfl

/-- Witness for the C10 theorem: Fluoxetine is not itself a roster item,
but contains FLU, and is routed to FRIDGE even though the database is
empty. -/
theorem fridge_keyword_substring_bypasses_database_witness :
    findLocation simZero (fun s => s) ⟨[], [], []⟩ "Fluoxetine 20 MG" "" "capsule" =
      some ("FRIDGE", "Refrigerated Section") :=
  fridge_keyword_substring_bypasses_database simZero (fun s => s) ⟨[], [], []⟩
    "Fluoxetine 20 MG" "" "capsule" "FLU" (by decide) (by decide)

/-! ## C6 — the lookup cascade misses to `none` and only hits through a
strategy.  The embedded `findLocation` is a total function: the one code
path that could raise in Python (`location_db[...]` inside strategy 7)
is modelled by an `Option` lookup, and on every state built by
`_load_locations` the two behaviours coincide because `sorted_index`
only stores keys of `location_db`. -/

/-- C6: when the empty-name guard does not fire and every strategy of
the cascade misses, `find_location` returns the not-found sentinel; and
every hit it returns is produced by the fridge override or by one of the
strategies 1–7. -/
theorem lookup_miss_returns_none (sim : String → String → ℚ)
    (normalize : String → String) (st : LookupDB) (name strength form : String) :
    (fridgeCheck name form = false →
      lookupExact st (normalize (fullMedString name strength form)) = none →
      strategy2 normalize st name strength form = none →
      strategy3 normalize st name strength = none →
      lookupExact st (normalize name) = none →
      fuzzyMatch sim st (normalize (fullMedString name strength form)) (mkRat 85 100) = none →
      fuzzyMatch sim st (normalize name) (mkRat 80 100) = none →
      strategy7 st (normalize (fullMedString name strength form)) = none →
      findLocation sim normalize st name strength form = none) ∧
    (∀ r, findLocation sim normalize st name strength form = some r →
      (fridgeCheck name form = true ∧ r = ("FRIDGE", getLocationDescription "FRIDGE")) ∨
      lookupExact st (normalize (fullMedString name strength form)) = some r ∨
      strategy2 normalize st name strength form = some r ∨
      strategy3 normalize st name strength = some r ∨
      lookupExact st (normalize name) = some r ∨
      (fuzzyMatch sim st (normalize (fullMedString name strength form)) (mkRat 85 100)).map
        (fun x => (x.1, x.2.1)) = some r ∨
      (fuzzyMatch sim st (normalize name) (mkRat 80 100)).map (fun x => (x.1, x.2.1)) = some r ∨
      strategy7 st (normalize (fullMedString name strength form)) = some r) := by
  constructor
  · intro hf h1 h2 h3 h4 h5 h6 h7
    by_cases hn : name = ""
    · simp [findLocation, hn]
    · simp only [findLocation, if_neg hn, hf, Bool.false_eq_true, if_false, h1, h2, h3, h4,
        h5, h6, h7, Option.map_none', Option.none_orElse]
  · intro r hr
    by_cases hn : name = ""
    · rw [findLocation, if_pos hn] at hr
      cases hr
    · by_cases hf : fridgeCheck name form = true
      · rw [findLocation, if_neg hn, if_pos hf] at hr
        exact Or.inl ⟨hf, (Option.some_inj.mp hr).symm⟩
      · rw [findLocation, if_neg hn, if_neg hf] at hr
        cases e1 : lookupExact st (normalize (fullMedString name strength form)) with
        | some v =>
          rw [e1, Option.some_orElse] at hr
          exact Or.inr (Or.inl hr)
        | none =>
        rw [e1, Option.none_orElse] at hr
        cases e2 : strategy2 normalize st name strength form with
        | some v =>
          rw [e2, Option.some_orElse] at hr
          exact Or.inr (Or.inr (Or.inl hr))
        | none =>
        rw [e2, Option.none_orElse] at hr
        cases e3 : strategy3 normalize st name strength with
        | some v =>
          rw [e3, Option.some_orElse] at hr
          exact Or.inr (Or.inr (Or.inr (Or.inl hr)))
        | none =>
        rw [e3, Option.none_orElse] at hr
        cases e4 : lookupExact st (normalize name) with
        | some v =>
          rw [e4, Option.some_orElse] at hr
          exact Or.inr (Or.inr (Or.inr (Or.inr (Or.inl hr))))
        | none =>
        rw [e4, Option.none_orElse] at hr
        cases e5 : (fuzzyMatch sim st (normalize (fullMedString name strength form))
            (mkRat 85 100)).map (fun x => (x.1, x.2.1)) with
        | some v =>
          rw [e5, Option.some_orElse] at hr
          exact Or.inr (Or.inr (Or.inr (Or.inr (Or.inr (Or.inl hr)))))
        | none =>
        rw [e5, Option.none_orElse] at hr
        cases e6 : (fuzzyMatch sim st (normalize name) (mkRat 80 100)).map
            (fun x => (x.1, x.2.1)) with
        | some v =>
          rw [e6, Option.some_orElse] at hr
          exact Or.inr (Or.inr (Or.inr (Or.inr (Or.inr (Or.inr (Or.inl hr))))))
        | none =>
        rw [e6, Option.none_orElse] at hr
        exact Or.inr (Or.inr (Or.inr (Or.inr (Or.inr (Or.inr (Or.inr hr))))))

/-- Witness for the C6 theorem: an unknown query against the empty
database runs through every strategy and returns the not-found
sentinel. -/
theorem lookup_miss_returns_none_witness :
    findLocation simZero (fun s => s) ⟨[], [], []⟩ "ZZZ" "" "" = none :=
  (lookup_miss_returns_none simZero (fun s => s) ⟨[], [], []⟩ "ZZZ" "" "").1
    (by decide) (by decide) (by decide) (by decide) (by decide) (by decide) (by decide)
    (by decide)

/-! ## C1 — the sorted-key subset strategy -/

theorem mem_sortStrings (l : List String) (x : String) :
    x ∈ sortStrings l ↔ x ∈ l :=
  (List.perm_insertionSort _ l).mem_iff

/-- C1: strategy 7 selects a candidate key only when the sorted
significant-word list of the candidate equals that of the query (computed from the
sorted-words key of the normalized query, exactly as the source does)
and every numeric token of the query occurs among the numeric tokens of
the candidate; consequently a query whose numeric-token set strictly
contains that of a candidate (witnessed by a numeric token the candidate
lacks) can never select that candidate. -/
theorem sorted_subset_needs_word_eq_and_num_subset (idx : List (String × String))
    (scanKey ck : String) :
    (strategy7MatchedKey idx scanKey = some ck →
      sortStrings ((pySplit ck).filter fun w => !(isNumericToken w)) =
        sortStrings ((pySplit scanKey).filter fun w => !(isNumericToken w)) ∧
      ∀ n ∈ (pySplit scanKey).filter (fun w => isNumericToken w),
        n ∈ (pySplit ck).filter fun w => isNumericToken w) ∧
    (∀ n, n ∈ (pySplit scanKey).filter (fun w => isNumericToken w) →
      n ∉ (pySplit ck).filter (fun w => isNumericToken w) →
      strategy7MatchedKey idx scanKey ≠ some ck) := by
  have main : strategy7MatchedKey idx scanKey = some ck →
      sortStrings ((pySplit ck).filter fun w => !(isNumericToken w)) =
        sortStrings ((pySplit scanKey).filter fun w => !(isNumericToken w)) ∧
      ∀ n ∈ (pySplit scanKey).filter (fun w => isNumericToken w),
        n ∈ (pySplit ck).filter fun w => isNumericToken w := by
    intro h
    unfold strategy7MatchedKey at h
    cases hd : dictFind idx scanKey with
    | some v =>
      rw [hd] at h
      have : scanKey = ck := Option.some_inj.mp h
      subst this
      exact ⟨rfl, fun n hn => hn⟩
    | none =>
      rw [hd] at h
      have hp := List.find?_some h
      rw [Bool.and_eq_true] at hp
      obtain ⟨hbeq, hall⟩ := hp
      constructor
      · exact (eq_of_beq hbeq).symm
      · intro n hn
        have hns : n ∈ sortStrings ((pySplit scanKey).filter fun w => isNumericToken w) :=
          (mem_sortStrings _ n).mpr hn
        have := (List.all_eq_true.mp hall) n hns
        simpa [List.contains, List.elem_iff] using this
  refine ⟨main, ?_⟩
  intro n hn hnot heq
  exact hnot ((main heq).2 n hn)

/-- Witness for the C1 theorem: the query key
`2 CEFTRIAXONE DEXTROSE ROCEPHIN` selects the verbose reference key
`2 5 CEFTRIAXONE DEXTROSE ROCEPHIN` (equal words, numeric subset), and
adding the extra numeric token `9` to the query makes that candidate
unreachable (the query would be a numeric strict superset). -/
theorem sorted_subset_needs_word_eq_and_num_subset_witness :
    (sortStrings ((pySplit "2 5 CEFTRIAXONE DEXTROSE ROCEPHIN").filter
        fun w => !(isNumericToken w)) =
      sortStrings ((pySplit "2 CEFTRIAXONE DEXTROSE ROCEPHIN").filter
        fun w => !(isNumericToken w)) ∧
     ∀ n ∈ (pySplit "2 CEFTRIAXONE DEXTROSE ROCEPHIN").filter (fun w => isNumericToken w),
       n ∈ (pySplit "2 5 CEFTRIAXONE DEXTROSE ROCEPHIN").filter fun w => isNumericToken w) ∧
    strategy7MatchedKey [("2 5 CEFTRIAXONE DEXTROSE ROCEPHIN", "CEFTRIAXONE KEY")]
      "2 9 CEFTRIAXONE DEXTROSE ROCEPHIN" ≠ some "2 5 CEFTRIAXONE DEXTROSE ROCEPHIN" := by
  constructor
  · exact (sorted_subset_needs_word_eq_and_num_subset
      [("2 5 CEFTRIAXONE DEXTROSE ROCEPHIN", "CEFTRIAXONE KEY")]
      "2 CEFTRIAXONE DEXTROSE ROCEPHIN" "2 5 CEFTRIAXONE DEXTROSE ROCEPHIN").1 (by decide)
  · exact (sorted_subset_needs_word_eq_and_num_subset
      [("2 5 CEFTRIAXONE DEXTROSE ROCEPHIN", "CEFTRIAXONE KEY")]
      "2 9 CEFTRIAXONE DEXTROSE ROCEPHIN" "2 5 CEFTRIAXONE DEXTROSE ROCEPHIN").2 "9"
      (by decide) (by decide)

/-! ## C7 — the cross-record redistribution pass -/

/-- A value triple realised at pairwise distinct positions of the number
list and satisfying the ±5 formula. -/
def ValidComboValues (ns : List Int) (t : Int × Int × Int) : Prop :=
  ∃ i j k, i < ns.length ∧ j < ns.length ∧ k < ns.length ∧ i ≠ j ∧ j ≠ k ∧ i ≠ k ∧
    t = (ns.getD i 0, ns.getD j 0, ns.getD k 0) ∧ |t.1 - (t.2.1 - t.2.2)| ≤ 5

theorem mem_unusedTriples (ns : List Int) (sel t : Int × Int × Int) :
    t ∈ unusedTriples ns sel ↔ ValidComboValues ns t ∧ t ≠ sel := by
  unfold unusedTriples
  rw [mem_dedupFirst]
  constructor
  · intro h
    rcases List.mem_flatMap.mp h with ⟨i, hi, h2⟩
    rcases List.mem_flatMap.mp h2 with ⟨j, hj, h3⟩
    rcases List.mem_filterMap.mp h3 with ⟨k, hk, hf⟩
    rw [List.mem_range] at hi hj hk
    split at hf
    · cases hf
    · split at hf
      · rename_i hne hcond
        push_neg at hne
        rcases Option.some_inj.mp hf with rfl
        exact ⟨⟨i, j, k, hi, hj, hk, hne.1, hne.2.1, hne.2.2, rfl, hcond.1⟩, hcond.2⟩
      · cases hf
  · rintro ⟨⟨i, j, k, hi, hj, hk, hij, hjk, hik, ht, habs⟩, hne⟩
    subst ht
    refine List.mem_flatMap.mpr ⟨i, List.mem_range.mpr hi, ?_⟩
    refine List.mem_flatMap.mpr ⟨j, List.mem_range.mpr hj, ?_⟩
    refine List.mem_filterMap.mpr ⟨k, List.mem_range.mpr hk, ?_⟩
    rw [if_neg (by push_neg; exact ⟨hij, hjk, hik⟩), if_pos ⟨habs, hne⟩]

theorem mem_processMed_snd (med : MedRec) (t : Int × Int × Int) :
    t ∈ (processMed med).2 ↔
      3 ≤ med.numbers.length ∧ ∃ sel, identifyColumnsByFormula med.numbers = some sel ∧
        t ≠ sel ∧ ValidComboValues med.numbers t := by
  unfold processMed
  by_cases h1 : med.numbers.length ≥ 1
  · rw [if_pos h1]
    by_cases h2 : med.numbers.length = 1
    · rw [if_pos h2]
      show t ∈ ([] : List (Int × Int × Int)) ↔ _
      simp only [List.not_mem_nil, false_iff, not_and]
      intro h3
      omega
    · rw [if_neg h2]
      by_cases h3 : med.numbers.length ≥ 3
      · rw [if_pos h3]
        cases hid : identifyColumnsByFormula med.numbers with
        | some sel =>
          obtain ⟨p, m, c⟩ := sel
          show t ∈ unusedTriples med.numbers (p, m, c) ↔ _
          rw [mem_unusedTriples]
          constructor
          · rintro ⟨hv, hne⟩
            exact ⟨h3, (p, m, c), rfl, hne, hv⟩
          · rintro ⟨_, sel₂, hsel₂, hne, hv⟩
            have hps : (p, m, c) = sel₂ := Option.some_inj.mp hsel₂
            subst hps
            exact ⟨hv, hne⟩
        | none =>
          show t ∈ ([] : List (Int × Int × Int)) ↔ _
          simp only [List.not_mem_nil, false_iff, not_and]
          rintro _ ⟨sel₂, hsel₂, _⟩
          cases hsel₂
      · rw [if_neg h3]
        show t ∈ ([] : List (Int × Int × Int)) ↔ _
        simp only [List.not_mem_nil, false_iff, not_and]
        intro hc
        omega
  · rw [if_neg h1]
    show t ∈ ([] : List (Int × Int × Int)) ↔ _
    simp only [List.not_mem_nil, false_iff, not_and]
    intro hc
    omega

theorem mem_firstPass_pool (meds : List MedRec) (t : Int × Int × Int) :
    t ∈ (firstPass meds).2 ↔
      ∃ med ∈ meds, 3 ≤ med.numbers.length ∧
        ∃ sel, identifyColumnsByFormula med.numbers = some sel ∧ t ≠ sel ∧
          ValidComboValues med.numbers t := by
  show t ∈ meds.flatMap (fun m => (processMed m).2) ↔ _
  rw [List.mem_flatMap]
  constructor
  · rintro ⟨med, hmed, hmem⟩
    exact ⟨med, hmed, (mem_processMed_snd med t).mp hmem⟩
  · rintro ⟨med, hmed, hrest⟩
    exact ⟨med, hmed, (mem_processMed_snd med t).mpr hrest⟩

theorem chooseTriplet_of_ne_nil (pool : List (Int × Int × Int)) (h : pool ≠ []) :
    ∃ t pool₂, chooseTriplet pool = some (t, pool₂) := by
  cases pool with
  | nil => exact absurd rfl h
  | cons p rest =>
    rcases hA : (p :: rest).filter (fun u => decide (10 ≤ u.1) && decide (u.1 ≤ 20)) with _ | ⟨a, tlA⟩
    · rcases hB : (p :: rest).filter (fun u => decide (5 ≤ u.1) && decide (u.1 ≤ 30)) with _ | ⟨b, tlB⟩
      · exact ⟨p, rest, by simp [chooseTriplet, hA, hB]⟩
      · exact ⟨b, (p :: rest).erase b, by simp [chooseTriplet, hA, hB]⟩
    · exact ⟨a, (p :: rest).erase a, by simp [chooseTriplet, hA]⟩

theorem secondPass_cons_needy (m : MedRec) (rest : List MedRec)
    (pool pool₂ : List (Int × Int × Int)) (t : Int × Int × Int)
    (hm : m.pick = none) (hct : chooseTriplet pool = some (t, pool₂)) :
    secondPass (m :: rest) pool =
      { m with pick := some t.1, maxAmt := some t.2.1, currentAmt := some t.2.2 } ::
        secondPass rest pool₂ := by
  conv_lhs => rw [secondPass]
  rw [if_pos hm, hct]

theorem chooseTriplet_prefs (pool : List (Int × Int × Int)) (t : Int × Int × Int)
    (pool₂ : List (Int × Int × Int)) (hct : chooseTriplet pool = some (t, pool₂)) :
    ((∃ u ∈ pool, 10 ≤ u.1 ∧ u.1 ≤ 20) → 10 ≤ t.1 ∧ t.1 ≤ 20) ∧
    ((¬ ∃ u ∈ pool, 10 ≤ u.1 ∧ u.1 ≤ 20) → (∃ u ∈ pool, 5 ≤ u.1 ∧ u.1 ≤ 30) →
      5 ≤ t.1 ∧ t.1 ≤ 30) ∧
    (List.Pairwise (fun a b => a.1 ≤ b.1) pool → (¬ ∃ u ∈ pool, 5 ≤ u.1 ∧ u.1 ≤ 30) →
      ∀ u ∈ pool, t.1 ≤ u.1) := by
  cases pool with
  | nil => cases hct
  | cons p rest =>
    rcases hA : (p :: rest).filter (fun u => decide (10 ≤ u.1) && decide (u.1 ≤ 20)) with _ | ⟨a, tlA⟩
    · rcases hB : (p :: rest).filter (fun u => decide (5 ≤ u.1) && decide (u.1 ≤ 30)) with _ | ⟨b, tlB⟩
      · have hval : chooseTriplet (p :: rest) = some (p, rest) := by
          simp [chooseTriplet, hA, hB]
        rw [hval] at hct
        have hta : p = t := congrArg Prod.fst (Option.some_inj.mp hct)
        subst hta
        refine ⟨fun hex => ?_, fun _ hex => ?_, fun hsort _ u hu => ?_⟩
        · obtain ⟨u, hu, hub⟩ := hex
          have hc : u ∈ (p :: rest).filter fun x => decide (10 ≤ x.1) && decide (x.1 ≤ 20) :=
            List.mem_filter.mpr ⟨hu, by simpa using hub⟩
          rw [hA] at hc
          cases hc
        · obtain ⟨u, hu, hub⟩ := hex
          have hc : u ∈ (p :: rest).filter fun x => decide (5 ≤ x.1) && decide (x.1 ≤ 30) :=
            List.mem_filter.mpr ⟨hu, by simpa using hub⟩
          rw [hB] at hc
          cases hc
        · rcases List.mem_cons.mp hu with rfl | hu
          · exact le_refl _
          · exact (List.pairwise_cons.mp hsort).1 u hu
      · have hval : chooseTriplet (p :: rest) = some (b, (p :: rest).erase b) := by
          simp [chooseTriplet, hA, hB]
        rw [hval] at hct
        have hta : b = t := congrArg Prod.fst (Option.some_inj.mp hct)
        subst hta
        have hmem : b ∈ (p :: rest).filter fun u => decide (5 ≤ u.1) && decide (u.1 ≤ 30) := by
          rw [hB]
          exact List.mem_cons_self _ _
        have hbf := List.mem_filter.mp hmem
        refine ⟨fun hex => ?_, fun _ _ => by simpa using hbf.2, fun _ hno _ _ => ?_⟩
        · obtain ⟨u, hu, hub⟩ := hex
          have hc : u ∈ (p :: rest).filter fun x => decide (10 ≤ x.1) && decide (x.1 ≤ 20) :=
            List.mem_filter.mpr ⟨hu, by simpa using hub⟩
          rw [hA] at hc
          cases hc
        · have h530 : 5 ≤ b.1 ∧ b.1 ≤ 30 := by simpa using hbf.2
          exact absurd ⟨b, hbf.1, h530⟩ hno
    · have hval : chooseTriplet (p :: rest) = some (a, (p :: rest).erase a) := by
        simp [chooseTriplet, hA]
      rw [hval] at hct
      have hta : a = t := congrArg Prod.fst (Option.some_inj.mp hct)
      subst hta
      have hmem : a ∈ (p :: rest).filter fun u => decide (10 ≤ u.1) && decide (u.1 ≤ 20) := by
        rw [hA]
        exact List.mem_cons_self _ _
      have haf := List.mem_filter.mp hmem
      refine ⟨fun _ => by simpa using haf.2, fun hno _ => ?_, fun _ hno _ _ => ?_⟩
      · exact absurd ⟨a, haf.1, by simpa using haf.2⟩ hno
      · have h1020 : 10 ≤ a.1 ∧ a.1 ≤ 20 := by simpa using haf.2
        exact absurd ⟨a, haf.1, by omega⟩ hno

theorem sorted_pool (pool : List (Int × Int × Int)) :
    List.Pairwise (fun (a b : Int × Int × Int) => a.1 ≤ b.1)
      (List.insertionSort (fun a b => a.1 ≤ b.1) pool) := by
  haveI htot : IsTotal (Int × Int × Int) (fun a b => a.1 ≤ b.1) :=
    ⟨fun a b => le_total a.1 b.1⟩
  haveI htrans : IsTrans (Int × Int × Int) (fun a b => a.1 ≤ b.1) :=
    ⟨fun _ _ _ h1 h2 => le_trans h1 h2⟩
  exact List.sorted_insertionSort _ pool

/-- C7 as amended: every valid triple found in a record but not selected
for it is pooled (first conjunct, an exact characterisation of the
pool); the pool handed to the second pass is sorted ascending by pick
value (last conjunct); a record with no `pick_amount` is assigned a
pooled triplet exactly when the remaining pool is nonempty (second and
third conjuncts); and the chosen triplet prefers pick in 10–20, then
5–30, and otherwise is the pooled triplet of smallest pick value
(fourth conjunct). -/
theorem unused_triples_pooled_and_redistributed :
    (∀ (meds : List MedRec) (t : Int × Int × Int), t ∈ (firstPass meds).2 ↔
      ∃ med ∈ meds, 3 ≤ med.numbers.length ∧
        ∃ sel, identifyColumnsByFormula med.numbers = some sel ∧ t ≠ sel ∧
          ValidComboValues med.numbers t) ∧
    (∀ (m : MedRec) (rest : List MedRec) pool pool₂ (t : Int × Int × Int),
      m.pick = none → chooseTriplet pool = some (t, pool₂) →
      secondPass (m :: rest) pool =
        { m with pick := some t.1, maxAmt := some t.2.1, currentAmt := some t.2.2 } ::
          secondPass rest pool₂) ∧
    (∀ pool : List (Int × Int × Int), pool ≠ [] →
      ∃ t pool₂, chooseTriplet pool = some (t, pool₂)) ∧
    (∀ (pool : List (Int × Int × Int)) (t : Int × Int × Int) pool₂,
      chooseTriplet pool = some (t, pool₂) →
      ((∃ u ∈ pool, 10 ≤ u.1 ∧ u.1 ≤ 20) → 10 ≤ t.1 ∧ t.1 ≤ 20) ∧
      ((¬ ∃ u ∈ pool, 10 ≤ u.1 ∧ u.1 ≤ 20) → (∃ u ∈ pool, 5 ≤ u.1 ∧ u.1 ≤ 30) →
        5 ≤ t.1 ∧ t.1 ≤ 30) ∧
      (List.Pairwise (fun a b => a.1 ≤ b.1) pool → (¬ ∃ u ∈ pool, 5 ≤ u.1 ∧ u.1 ≤ 30) →
        ∀ u ∈ pool, t.1 ≤ u.1)) ∧
    (∀ meds : List MedRec, List.Pairwise (fun (a b : Int × Int × Int) => a.1 ≤ b.1)
      (List.insertionSort (fun a b => a.1 ≤ b.1) (firstPass meds).2)) :=
  ⟨mem_firstPass_pool,
   fun m rest pool pool₂ t hm hct => secondPass_cons_needy m rest pool pool₂ t hm hct,
   chooseTriplet_of_ne_nil,
   chooseTriplet_prefs,
   fun meds => sorted_pool (firstPass meds).2⟩

/-- C7 counterexample (to the claim as frozen): with one record whose
numbers pool exactly one unused triplet and two later records with no
numbers, the pool is exhausted on the first needy record and the second
needy record is left with no `pick_amount` at all — it is not assigned
any pooled triple. -/
theorem redistribution_exhaustion_counterexample :
    (identifyNumbersByFormula
      [⟨"amiodarone", [12, 30, 20, 90], none, none, none, none, none, none⟩,
       ⟨"pantoprazole", [], none, none, none, none, none, none⟩,
       ⟨"nifedipine", [], none, none, none, none, none, none⟩]).map (fun m => m.pick) =
      [some 12, some 20, none] ∧
    (firstPass
      [⟨"amiodarone", [12, 30, 20, 90], none, none, none, none, none, none⟩,
       ⟨"pantoprazole", [], none, none, none, none, none, none⟩,
       ⟨"nifedipine", [], none, none, none, none, none, none⟩]).2 = [(20, 30, 12)] := by
  refine ⟨by decide, by decide⟩

/-- Witness for the amended C7 theorem, instantiating every conjunct at
concrete inputs: the pool of `[12, 30, 20, 90]` contains `(20, 30, 12)`;
a needy record receives the chosen triplet; a nonempty pool always
yields a choice; the preferred 10–20 pick is chosen; and the sorted pool
is pairwise ordered. -/
theorem unused_triples_pooled_and_redistributed_witness :
    ((20, 30, 12) ∈
      (firstPass [⟨"amiodarone", [12, 30, 20, 90], none, none, none, none, none, none⟩]).2) ∧
    (secondPass [⟨"pantoprazole", [], none, none, none, none, none, none⟩] [(20, 30, 12)] =
      [⟨"pantoprazole", [], some 20, some 30, some 12, none, none, none⟩]) ∧
    (∃ t pool₂, chooseTriplet [(20, 30, 12)] = some (t, pool₂)) ∧
    (10 ≤ ((12, 30, 20) : Int × Int × Int).1 ∧ ((12, 30, 20) : Int × Int × Int).1 ≤ 20) ∧
    List.Pairwise (fun (a b : Int × Int × Int) => a.1 ≤ b.1)
      (List.insertionSort (fun a b => a.1 ≤ b.1)
        (firstPass [⟨"amiodarone", [12, 30, 20, 90], none, none, none, none, none, none⟩]).2) := by
  refine ⟨?_, ?_, ?_, ?_, ?_⟩
  · exact (unused_triples_pooled_and_redistributed.1
      [⟨"amiodarone", [12, 30, 20, 90], none, none, none, none, none, none⟩] (20, 30, 12)).mpr
      ⟨⟨"amiodarone", [12, 30, 20, 90], none, none, none, none, none, none⟩,
        by decide, by decide, (12, 30, 20), by decide, by decide,
        ⟨2, 1, 0, by decide, by decide, by decide, by decide, by decide, by decide, rfl,
          by decide⟩⟩
  · have := unused_triples_pooled_and_redistributed.2.1
      ⟨"pantoprazole", [], none, none, none, none, none, none⟩ [] [(20, 30, 12)] []
      (20, 30, 12) rfl (by decide)
    simpa [secondPass] using this
  · exact unused_triples_pooled_and_redistributed.2.2.1 [(20, 30, 12)] (by decide)
  · exact (unused_triples_pooled_and_redistributed.2.2.2.1
      [(7, 9, 2), (12, 30, 20)] (12, 30, 20) [(7, 9, 2)] (by decide)).1
      ⟨(12, 30, 20), by decide, by decide⟩
  · exact unused_triples_pooled_and_redistributed.2.2.2.2
      [⟨"amiodarone", [12, 30, 20, 90], none, none, none, none, none, none⟩]

end PharmacyPickup
